import Mathlib

/-!
Shallow embedding of the ts-diagnostics-mcp core in Lean 4.

The embedding follows the TypeScript sources:
* src/types/index.ts      — data model and convertDiagnostic
* src/utils/cache.ts      — DiagnosticCache and the glob ignore filter
* src/utils/workspace.ts  — detectWorkspace dispatch
* src/core/watch-manager.ts — TypeScriptWatchManager state and operations

JavaScript strings are modelled as Lean String (operated on via List Char
where substring surgery is needed), JS numbers used as counters and
positions as Nat, and JS number division (hit rate) as rational division.
File-system and compiler-session effects are abstracted as explicit
environment records; functions that mutate object state take and return an
explicit state value.
-/

namespace TsDiagMcp

/-! ## Association lists

JavaScript Map objects (string keyed) are modelled as association lists
with JS Map semantics: set replaces in place and appends new keys at the
end, delete removes the entry, lookup finds the unique entry.
-/

/-- Lookup in an association list, mirroring JS Map.get. -/
def assocGet {α β : Type} [DecidableEq α] : List (α × β) → α → Option β
  | [], _ => none
  | (k, v) :: rest, key => if k = key then some v else assocGet rest key

/-- Insert or replace in an association list, mirroring JS Map.set:
an existing key is updated in place, a new key is appended at the end. -/
def assocSet {α β : Type} [DecidableEq α] : List (α × β) → α → β → List (α × β)
  | [], key, val => [(key, val)]
  | (k, v) :: rest, key, val =>
    if k = key then (key, val) :: rest else (k, v) :: assocSet rest key val

/-- Remove a key from an association list, mirroring JS Map.delete. -/
def assocDelete {α β : Type} [DecidableEq α] : List (α × β) → α → List (α × β)
  | [], _ => []
  | (k, v) :: rest, key =>
    if k = key then assocDelete rest key else (k, v) :: assocDelete rest key

/-! ## Data model (src/types/index.ts) -/

/-- Diagnostic severity levels, the closed enumeration
error | warning | suggestion | message. -/
inductive DiagnosticCategory : Type
  | error
  | warning
  | suggestion
  | message
deriving DecidableEq, Repr

/-- Simplified diagnostic format for MCP responses (interface Diagnostic). -/
structure Diagnostic : Type where
  file : String
  line : Nat
  column : Nat
  category : DiagnosticCategory
  code : Nat
  message : String
  messageText : String
  start : Option Nat
  length : Option Nat
deriving DecidableEq, Repr

/-- Result of diagnostic queries (interface DiagnosticResult). -/
structure DiagnosticResult : Type where
  timestamp : Nat
  totalErrors : Nat
  totalWarnings : Nat
  totalSuggestions : Nat
  totalMessages : Nat
  diagnostics : List Diagnostic
  cacheHit : Bool
  source : String
deriving DecidableEq, Repr

/-- Watch status information (interface WatchStatus). -/
structure WatchStatus : Type where
  active : Bool
  watchedConfigs : List String
  watchedFiles : Nat
  lastCompilation : Option Nat
  projectRoot : String
  mode : String
deriving DecidableEq, Repr

/-- Cache statistics (interface CacheStats). The hit rate, a JS number
produced by exact division of small counters, is modelled as a rational. -/
structure CacheStats : Type where
  size : Nat
  hits : Nat
  misses : Nat
  evictions : Nat
  hitRate : ℚ
  itemCount : Nat
deriving DecidableEq, Repr

/-- Configuration for a TypeScript project (interface TSProjectConfig);
name and rootDir are optional fields. -/
structure TSProjectConfig : Type where
  configPath : String
  name : Option String
  rootDir : Option String
deriving DecidableEq, Repr

/-- Workspace detection result (interface WorkspaceInfo); the type tag is
one of the string literals pnpm | yarn | npm | rush | lerna | single. -/
structure WorkspaceInfo : Type where
  type : String
  packages : List TSProjectConfig
  rootConfig : Option String
deriving DecidableEq, Repr

/-! ## convertDiagnostic (src/types/index.ts) -/

/-- The slice of a ts.SourceFile that convertDiagnostic consults: its
fileName and the getLineAndCharacterOfPosition method, which maps a byte
offset to a zero-based (line, character) pair. -/
structure TsSourceFile : Type where
  fileName : String
  getLineAndCharacterOfPosition : Nat → Nat × Nat

/-- The slice of a ts.Diagnostic that convertDiagnostic consults. The
messageText field is modelled after ts.flattenDiagnosticMessageText has
been applied, since the claims never inspect message chains. -/
structure TsCompilerDiagnostic : Type where
  file : Option TsSourceFile
  start : Option Nat
  length : Option Nat
  category : Nat
  code : Nat
  messageText : String

/-- convertDiagnosticCategory from src/types/index.ts: switch on the
numeric category with 0, 1, 2, 3 mapped as in the source and any other
value defaulting to error. -/
def convertDiagnosticCategory (category : Nat) : DiagnosticCategory :=
  match category with
  | 0 => DiagnosticCategory.error
  | 1 => DiagnosticCategory.warning
  | 2 => DiagnosticCategory.suggestion
  | 3 => DiagnosticCategory.message
  | _ => DiagnosticCategory.error

/-- convertDiagnostic from src/types/index.ts. The JS expression
  position?.line ? position.line + 1 : 0
yields 0 when position is undefined, and also when position.line is the
falsy number 0; likewise for the column. The JS expression
  diagnostic.start || 0
is Option.getD 0 on naturals (0 is falsy but yields 0 either way). -/
def convertDiagnostic (diagnostic : TsCompilerDiagnostic) : Diagnostic :=
  let file := match diagnostic.file with
    | some f => f.fileName
    | none => "unknown"
  let position := diagnostic.file.map
    (fun f => f.getLineAndCharacterOfPosition (diagnostic.start.getD 0))
  { file := file
    line := match position with
      | some p => if p.1 = 0 then 0 else p.1 + 1
      | none => 0
    column := match position with
      | some p => if p.2 = 0 then 0 else p.2 + 1
      | none => 0
    category := convertDiagnosticCategory diagnostic.category
    code := diagnostic.code
    message := diagnostic.messageText
    messageText := diagnostic.messageText
    start := diagnostic.start
    length := diagnostic.length }

/-! ## DiagnosticCache (src/utils/cache.ts)

The lru-cache instance is modelled as an association list of entries plus
the hit/miss/eviction counters. Capacity-based LRU eviction and the
one-hour TTL only ever remove entries; they are not modelled, since no
claim depends on an eviction occurring (updateAgeOnGet likewise only
affects recency). The getStats hit rate, a JS number division of the two
counters, is modelled as rational division.
-/

/-- A cache entry: diagnostics snapshot plus insertion timestamp
(interface CacheEntry; the optional fileHash is never set by the watch
manager and is omitted). -/
structure CacheEntry : Type where
  diagnostics : List Diagnostic
  timestamp : Nat
deriving DecidableEq, Repr

/-- The DiagnosticCache state: the lru-cache entry table and the
statistics counters. -/
structure DiagnosticCache : Type where
  entries : List (String × CacheEntry)
  hits : Nat
  misses : Nat
  evictions : Nat
deriving DecidableEq, Repr

/-- A freshly constructed DiagnosticCache: empty table, zero counters. -/
def DiagnosticCache.empty : DiagnosticCache :=
  { entries := [], hits := 0, misses := 0, evictions := 0 }

/-- DiagnosticCache.get: on a present entry, count a hit and return its
diagnostics; otherwise count a miss and return null (modelled as none).
The updated cache is returned alongside since the counters mutate. -/
def DiagnosticCache.get (c : DiagnosticCache) (key : String) :
    Option (List Diagnostic) × DiagnosticCache :=
  match assocGet c.entries key with
  | some entry => (some entry.diagnostics, { c with hits := c.hits + 1 })
  | none => (none, { c with misses := c.misses + 1 })

/-- DiagnosticCache.set: store the diagnostics with the current timestamp
(Date.now is passed in as now). -/
def DiagnosticCache.set (c : DiagnosticCache) (key : String)
    (diagnostics : List Diagnostic) (now : Nat) : DiagnosticCache :=
  { c with entries := assocSet c.entries key { diagnostics := diagnostics, timestamp := now } }

/-- DiagnosticCache.delete. -/
def DiagnosticCache.delete (c : DiagnosticCache) (key : String) : DiagnosticCache :=
  { c with entries := assocDelete c.entries key }

/-- DiagnosticCache.clear. -/
def DiagnosticCache.clear (c : DiagnosticCache) : DiagnosticCache :=
  { c with entries := [] }

/-- DiagnosticCache.getStats: hit rate is hits divided by total requests
when any request has occurred, and 0 otherwise. -/
def DiagnosticCache.getStats (c : DiagnosticCache) : CacheStats :=
  let totalRequests := c.hits + c.misses
  { size := c.entries.length
    hits := c.hits
    misses := c.misses
    evictions := c.evictions
    hitRate := if totalRequests > 0 then (c.hits : ℚ) / (totalRequests : ℚ) else 0
    itemCount := c.entries.length }

/-! ## Glob ignore filter (src/utils/cache.ts, ignore section)

globToRegex builds a regular expression SOURCE string from a glob and
hands it to the RegExp constructor; the pure string construction is
embedded here, step for step. JS String.prototype.replace with a global
literal pattern rewrites non-overlapping occurrences left to right and
continues scanning after each replacement; replaceAllChars implements
exactly that on character lists, with the list length as structural fuel
(each step consumes at least one character, so the fuel never runs out).
-/

/-- One fuelled step of JS global literal replacement. -/
def replaceFuel (pat repl : List Char) : Nat → List Char → List Char
  | 0, l => l
  | _ + 1, [] => []
  | fuel + 1, c :: rest =>
    if pat.isPrefixOf (c :: rest) then
      repl ++ replaceFuel pat repl fuel ((c :: rest).drop pat.length)
    else
      c :: replaceFuel pat repl fuel rest

/-- JS str.replace(/pattern/g, replacement) for a literal pattern, on
character lists. An empty pattern never arises in globToRegex; it is
mapped to the identity to keep the function total. -/
def replaceAllChars (s pat repl : List Char) : List Char :=
  if pat.isEmpty then s else replaceFuel pat repl s.length s

/-- The character class of regex.replace in globToRegex, line 207 of the
ignore section: special regex characters that get backslash-escaped.
The glob wildcards asterisk and question mark are deliberately absent. -/
def escapedSpecials : List Char :=
  ['.', '+', '^', '$', '{', '}', '(', ')', '|', '[', ']', '\\']

/-- The escaping pass: each special character is replaced by a backslash
followed by itself (replacement string backslash-dollar-ampersand). -/
def escapeSpecials (s : List Char) : List Char :=
  s.foldr (fun c acc => (if c ∈ escapedSpecials then ['\\', c] else [c]) ++ acc) []

/-- The brace alternation replacement: the captured alternatives are
split on commas and joined with pipes, which amounts to replacing every
comma by a pipe. -/
def braceAlternatives (mid : List Char) : List Char :=
  mid.map (fun c => if c = ',' then '|' else c)

/-- One fuelled step of the brace-alternation pass, the JS global regex
replace of an open brace, one or more non-close-brace characters, and a
close brace. The regex engine matches at the leftmost open brace whose
following maximal run of non-close-brace characters is nonempty and
followed by a close brace, and resumes scanning after the replacement. -/
def braceFuel : Nat → List Char → List Char
  | 0, l => l
  | _ + 1, [] => []
  | fuel + 1, c :: rest =>
    if c = '{' then
      let mid := rest.takeWhile (fun x => x ≠ '}')
      match rest.dropWhile (fun x => x ≠ '}') with
      | '}' :: tail =>
        if mid.isEmpty then c :: braceFuel fuel rest
        else '(' :: (braceAlternatives mid ++ ')' :: braceFuel fuel tail)
      | _ => c :: braceFuel fuel rest
    else c :: braceFuel fuel rest

/-- The brace-alternation pass with sufficient fuel. -/
def braceStep (l : List Char) : List Char :=
  braceFuel l.length l

/-- globToRegex from the ignore section of src/utils/cache.ts, embedded
as the construction of the regular-expression source string that the code
passes to the RegExp constructor: escape the special characters, replace
backslash-star-backslash-star by dot-star, replace backslash-star by a
bracketed non-slash class with star, replace question mark by a bracketed
non-slash class, rewrite brace alternation, and add anchors. -/
def globToRegex (glob : String) : String :=
  let r1 := escapeSpecials glob.data
  let r2 := replaceAllChars r1 ['\\', '*', '\\', '*'] ['.', '*']
  let r3 := replaceAllChars r2 ['\\', '*'] ['[', '^', '/', ']', '*']
  let r4 := replaceAllChars r3 ['?'] ['[', '^', '/', ']']
  let r5 := braceStep r4
  String.mk ('^' :: r5 ++ ['$'])

/-! ## TypeScriptWatchManager (src/core/watch-manager.ts)

The manager state holds the fields of the class. Watch sessions are
opaque: the watchers table keeps their keys (config paths), and sessions
on which close was called are recorded in a closed log so shutdown can be
observed. The file system is an explicit environment (existsSync), and
Date.now is the now field of the state, since no claim depends on the
clock advancing.
-/

/-- The existsSync slice of the file system consulted by
startWatchingConfig. -/
structure FsEnv : Type where
  fileExists : String → Bool

/-- A per-project map from file path to that file's diagnostic bucket. -/
abbrev FileDiagnosticMap : Type := List (String × List Diagnostic)

/-- The mutable state of a TypeScriptWatchManager instance. -/
structure ManagerState : Type where
  configs : List TSProjectConfig
  watchers : List String
  closedWatchers : List String
  diagnosticsByConfig : List (String × FileDiagnosticMap)
  cache : DiagnosticCache
  isActive : Bool
  lastCompilation : Option Nat
  now : Nat
deriving Repr

/-- The constructor: store the configs, create an empty cache; nothing is
watched and the manager is inactive. -/
def initialState (configs : List TSProjectConfig) (now : Nat) : ManagerState :=
  { configs := configs
    watchers := []
    closedWatchers := []
    diagnosticsByConfig := []
    cache := DiagnosticCache.empty
    isActive := false
    lastCompilation := none
    now := now }

/-- startWatchingConfig: when the tsconfig does not exist the project is
skipped (logged only); otherwise a watch program is registered under the
config path and an empty diagnostic map is initialized for it. -/
def startWatchingConfig (env : FsEnv) (s : ManagerState) (config : TSProjectConfig) :
    ManagerState :=
  if env.fileExists config.configPath then
    { s with
       watchers := if config.configPath ∈ s.watchers then s.watchers
                   else s.watchers ++ [config.configPath]
       diagnosticsByConfig := assocSet s.diagnosticsByConfig config.configPath [] }
  else s

/-- start: a no-op when already active (only a warning is logged);
otherwise set the active flag and start watching every config. -/
def start (env : FsEnv) (s : ManagerState) : ManagerState :=
  if s.isActive then s
  else
    ({ s with isActive := true }.configs.foldl (startWatchingConfig env)
      { s with isActive := true })

/-- onDiagnostic: convert the compiler diagnostic, bail out when the
config has no diagnostic map, otherwise push the converted diagnostic
onto the file's bucket (creating an empty bucket first when absent) and
write the updated bucket through to the cache under the composite key
configPath colon fileName. The push is an append: nothing ever removes
diagnostics of earlier compilation passes here. -/
def onDiagnostic (config : TSProjectConfig) (diagnostic : TsCompilerDiagnostic)
    (s : ManagerState) : ManagerState :=
  let converted := convertDiagnostic diagnostic
  match assocGet s.diagnosticsByConfig config.configPath with
  | none => s
  | some diagnosticMap =>
    let fileName := converted.file
    let fileDiagnostics := (assocGet diagnosticMap fileName).getD [] ++ [converted]
    { s with
        diagnosticsByConfig := assocSet s.diagnosticsByConfig config.configPath
          (assocSet diagnosticMap fileName fileDiagnostics)
        cache := s.cache.set (config.configPath ++ ":" ++ fileName) fileDiagnostics s.now }

/-- JS String.prototype.includes on character lists: the pattern occurs
as a contiguous substring. -/
def jsIncludes (sub : List Char) : List Char → Bool
  | [] => sub.isEmpty
  | c :: rest => sub.isPrefixOf (c :: rest) || jsIncludes sub rest

/-- onWatchStatusChange: when the flattened message signals a completed
compilation, record the timestamp and emit aggregate counts (the emit has
no effect on manager state); in every case the diagnostic store and the
cache are left untouched. String.includes is infix containment. -/
def onWatchStatusChange (_config : TSProjectConfig) (messageText : String)
    (s : ManagerState) : ManagerState :=
  if (jsIncludes "Found 0 errors".data messageText.data ||
      jsIncludes "Watching for file changes".data messageText.data) then
    { s with lastCompilation := some s.now }
  else s

/-- getAllDiagnosticsForConfig: concatenate the buckets of the config's
diagnostic map, or return the empty list when the config is unknown. -/
def getAllDiagnosticsForConfig (s : ManagerState) (configPath : String) :
    List Diagnostic :=
  match assocGet s.diagnosticsByConfig configPath with
  | none => []
  | some diagnosticMap => (diagnosticMap.map Prod.snd).flatten

/-- buildDiagnosticResult: category totals are filter lengths over the
diagnostics list; the timestamp is Date.now. -/
def buildDiagnosticResult (now : Nat) (diagnostics : List Diagnostic)
    (source : String) (cacheHit : Bool) : DiagnosticResult :=
  { timestamp := now
    totalErrors := (diagnostics.filter (fun d => d.category == DiagnosticCategory.error)).length
    totalWarnings := (diagnostics.filter (fun d => d.category == DiagnosticCategory.warning)).length
    totalSuggestions := (diagnostics.filter (fun d => d.category == DiagnosticCategory.suggestion)).length
    totalMessages := (diagnostics.filter (fun d => d.category == DiagnosticCategory.message)).length
    diagnostics := diagnostics
    cacheHit := cacheHit
    source := source }

/-- getAllDiagnostics: aggregate every config's diagnostics with source
label "all" and cacheHit true. -/
def getAllDiagnostics (s : ManagerState) : DiagnosticResult :=
  let allDiagnostics :=
    (s.diagnosticsByConfig.map (fun p => getAllDiagnosticsForConfig s p.1)).flatten
  buildDiagnosticResult s.now allDiagnostics "all" true

/-- The loop body of getFileDiagnostics: for one config, look the
composite key up in the cache only (the lookup counts a hit or a miss on
the cache statistics) and concatenate whatever was found. The query never
falls back to the diagnostic store. -/
def fileLookupStep (filePath : String) (acc : List Diagnostic × DiagnosticCache)
    (config : TSProjectConfig) : List Diagnostic × DiagnosticCache :=
  let res := acc.2.get (config.configPath ++ ":" ++ filePath)
  match res.1 with
  | some cached => (acc.1 ++ cached, res.2)
  | none => (acc.1, res.2)

/-- getFileDiagnostics proper: fold the per-config cache lookup over the
configs and build the result from the collected diagnostics. -/
def getFileDiagnostics (s : ManagerState) (filePath : String) :
    DiagnosticResult × ManagerState :=
  let r := s.configs.foldl (fileLookupStep filePath) ([], s.cache)
  (buildDiagnosticResult s.now r.1 filePath (decide (r.1.length > 0)),
   { s with cache := r.2 })

/-- getPackageDiagnostics: find the first config whose name strictly
equals the requested package name; absent means null. For a found config
the result is built over that config's stored diagnostics with cacheHit
true. The function is total: no exception path exists. -/
def getPackageDiagnostics (s : ManagerState) (packageName : String) :
    Option DiagnosticResult :=
  match s.configs.find? (fun c => c.name == some packageName) with
  | none => none
  | some config =>
    some (buildDiagnosticResult s.now (getAllDiagnosticsForConfig s config.configPath)
      packageName true)

/-- getTotalFilesWatched: sum of the sizes of the per-config diagnostic
maps. -/
def getTotalFilesWatched (s : ManagerState) : Nat :=
  s.diagnosticsByConfig.foldl (fun total p => total + p.2.length) 0

/-- getStatus: the active flag, the config paths, the summed bucket-map
sizes, the last compilation time, the first rootDir (empty string when
absent) and monorepo mode exactly when more than one config exists. -/
def getStatus (s : ManagerState) : WatchStatus :=
  { active := s.isActive
    watchedConfigs := s.configs.map (fun c => c.configPath)
    watchedFiles := getTotalFilesWatched s
    lastCompilation := s.lastCompilation
    projectRoot := ((s.configs.head?.bind (fun c => c.rootDir)).getD "")
    mode := if s.configs.length > 1 then "monorepo" else "single" }

/-- clearFileDiagnostics: for every config, delete the file's bucket from
the store map and delete the composite key from the cache. -/
def clearFileDiagnostics (s : ManagerState) (filePath : String) : ManagerState :=
  { s with
      diagnosticsByConfig :=
        s.diagnosticsByConfig.map (fun p => (p.1, assocDelete p.2 filePath))
      cache :=
        s.diagnosticsByConfig.foldl
          (fun c p => c.delete (p.1 ++ ":" ++ filePath)) s.cache }

/-- clearAllDiagnostics: clear every per-config diagnostic map (the maps
stay registered but become empty) and clear the cache. -/
def clearAllDiagnostics (s : ManagerState) : ManagerState :=
  { s with
      diagnosticsByConfig := s.diagnosticsByConfig.map (fun p => (p.1, []))
      cache := s.cache.clear }

/-- stop: a no-op when not active; otherwise close every watcher, clear
the watcher table and drop the active flag. The diagnostic store, the
cache and its statistics are untouched. -/
def stop (s : ManagerState) : ManagerState :=
  if s.isActive then
    { s with
        closedWatchers := s.closedWatchers ++ s.watchers
        watchers := []
        isActive := false }
  else s

/-- getCacheStats. -/
def getCacheStats (s : ManagerState) : CacheStats :=
  s.cache.getStats

/-! ## Operation alphabet for reachability (claim C4)

The manager is single threaded; a run is a list of operations applied in
order. The alphabet covers diagnostic ingestion, the two clears and the
one query that mutates state (getFileDiagnostics touches the cache
counters; the other queries are pure reads). -/

/-- One externally triggered manager operation. -/
inductive ManagerOp : Type
  | ingest (config : TSProjectConfig) (diagnostic : TsCompilerDiagnostic)
  | statusChange (config : TSProjectConfig) (messageText : String)
  | clearFile (filePath : String)
  | clearAll
  | queryFile (filePath : String)

/-- Apply one operation to the state. -/
def stepOp (s : ManagerState) (op : ManagerOp) : ManagerState :=
  match op with
  | ManagerOp.ingest config diagnostic => onDiagnostic config diagnostic s
  | ManagerOp.statusChange config messageText => onWatchStatusChange config messageText s
  | ManagerOp.clearFile filePath => clearFileDiagnostics s filePath
  | ManagerOp.clearAll => clearAllDiagnostics s
  | ManagerOp.queryFile filePath => (getFileDiagnostics s filePath).2

/-- Run a list of operations from a state. -/
def runOps (s : ManagerState) (ops : List ManagerOp) : ManagerState :=
  ops.foldl stepOp s

/-! ## Workspace detection (src/utils/workspace.ts)

detectWorkspace dispatches on file-system markers in a fixed order. The
four helper functions (detectPnpmWorkspaces, detectNpmWorkspaces,
detectRushWorkspaces, detectLernaWorkspaces) perform file reads and glob
expansion; each is abstracted as the package list it would return in the
given environment, so the embedding captures exactly which helper's
result the dispatch selects. JSON.parse of the root package.json can
throw on malformed content; that path is an Except error. -/

/-- The workspaces field of a package.json: either an array of patterns
or an object with a packages array. -/
inductive WorkspacesField : Type
  | arr (patterns : List String)
  | obj (packages : List String)
deriving DecidableEq, Repr

/-- The parsed slice of the root package.json that detectWorkspace
consults. -/
structure PackageJson : Type where
  workspaces : Option WorkspacesField
  packageManager : Option String
deriving DecidableEq, Repr

/-- The environment of detectWorkspace: existsSync, the parse of the root
package.json (none models a JSON.parse exception), and the package lists
the four workspace helpers would produce. -/
structure DetectEnv : Type where
  fileExists : String → Bool
  parsedPackageJson : Option PackageJson
  pnpmPackages : List TSProjectConfig
  npmPackages : List TSProjectConfig
  rushPackages : List TSProjectConfig
  lernaPackages : List TSProjectConfig

/-- node path.join for a root and a file name, as used in
detectWorkspace. -/
def pathJoin (root name : String) : String :=
  root ++ "/" ++ name

/-- The optional-chaining test pkg.packageManager when tested with
startsWith for the yarn prefix: false when the field is absent. -/
def packageManagerIsYarn (packageManager : Option String) : Bool :=
  match packageManager with
  | some s => s.startsWith "yarn"
  | none => false

/-- The tail of detectWorkspace after the pnpm and package.json probes:
try rush.json, then lerna.json, then fall back to the single-project
result with name root. -/
def detectWorkspaceTail (env : DetectEnv) (projectRoot : String) :
    Except String WorkspaceInfo :=
  if env.fileExists (pathJoin projectRoot "rush.json") then
    Except.ok { type := "rush", packages := env.rushPackages,
                rootConfig := some (pathJoin projectRoot "tsconfig.json") }
  else if env.fileExists (pathJoin projectRoot "lerna.json") then
    Except.ok { type := "lerna", packages := env.lernaPackages,
                rootConfig := some (pathJoin projectRoot "tsconfig.json") }
  else
    Except.ok { type := "single",
                packages := [{ configPath := pathJoin projectRoot "tsconfig.json",
                               name := some "root",
                               rootDir := some projectRoot }],
                rootConfig := none }

/-- detectWorkspace: probe pnpm-workspace.yaml first; then package.json
and its workspaces field (malformed JSON throws); then rush.json; then
lerna.json; else a single-project result. The first matching marker fully
determines the package list. -/
def detectWorkspace (env : DetectEnv) (projectRoot : String) :
    Except String WorkspaceInfo :=
  if env.fileExists (pathJoin projectRoot "pnpm-workspace.yaml") then
    Except.ok { type := "pnpm", packages := env.pnpmPackages,
                rootConfig := some (pathJoin projectRoot "tsconfig.json") }
  else if env.fileExists (pathJoin projectRoot "package.json") then
    match env.parsedPackageJson with
    | none => Except.error "JSON.parse"
    | some pkg =>
      match pkg.workspaces with
      | some _ =>
        Except.ok { type := if packageManagerIsYarn pkg.packageManager then "yarn" else "npm",
                    packages := env.npmPackages,
                    rootConfig := some (pathJoin projectRoot "tsconfig.json") }
      | none => detectWorkspaceTail env projectRoot
  else detectWorkspaceTail env projectRoot

/-! ## Concrete fixtures used by the claim instances -/

/-- A file system in which every probed path exists. -/
def allFs : FsEnv :=
  { fileExists := fun _ => true }

/-- A single project configuration named app. -/
def cfgApp : TSProjectConfig :=
  { configPath := "proj/tsconfig.json", name := some "app", rootDir := some "proj" }

/-- A compiler diagnostic with a source file whose position lookup
answers the given zero-based line and character. -/
def tsDiagAt (fileName : String) (line character : Nat) (msg : String) :
    TsCompilerDiagnostic :=
  { file := some { fileName := fileName
                   getLineAndCharacterOfPosition := fun _ => (line, character) }
    start := some 0
    length := some 1
    category := 0
    code := 2322
    messageText := msg }

/-- The state after starting a single app project and receiving one
diagnostic for proj/a.ts in a first pass, the pass-complete watch status
message, and one diagnostic for the same file in a second pass. -/
def twoPassState : ManagerState :=
  runOps (start allFs (initialState [cfgApp] 1000))
    [ManagerOp.ingest cfgApp (tsDiagAt "proj/a.ts" 3 5 "first pass"),
     ManagerOp.statusChange cfgApp "Watching for file changes.",
     ManagerOp.ingest cfgApp (tsDiagAt "proj/a.ts" 3 5 "second pass")]

/-- A compiler diagnostic carrying a source file, located at the first
line and first character of that file (zero-based line 0, character 0). -/
def tsDiagAtFileStart : TsCompilerDiagnostic :=
  tsDiagAt "src/main.ts" 0 0 "Type error at file start"

/-- A cache that has served exactly one hit and one miss from fresh
statistics: one entry is stored, looked up (hit), then a missing key is
looked up (miss). -/
def oneHitOneMissCache : DiagnosticCache :=
  ((((DiagnosticCache.empty.set "proj/tsconfig.json:proj/a.ts" [] 5).get
      "proj/tsconfig.json:proj/a.ts").2).get "proj/tsconfig.json:proj/b.ts").2

/-- The Store and Cache agree pointwise: whenever a (project config,
file path) pair has a bucket in the store and its composite cache key has
an entry in the cache, the cached diagnostics equal the stored bucket. -/
def storeCacheAgree (s : ManagerState) : Prop :=
  ∀ (configPath : String) (diagnosticMap : FileDiagnosticMap)
    (fileName : String) (bucket : List Diagnostic) (entry : CacheEntry),
    assocGet s.diagnosticsByConfig configPath = some diagnosticMap →
    assocGet diagnosticMap fileName = some bucket →
    assocGet s.cache.entries (configPath ++ ":" ++ fileName) = some entry →
    entry.diagnostics = bucket

/-- No project key of the diagnostic store contains a colon, so composite
cache keys decompose uniquely into config path and file path. -/
def colonFreeStoreKeys (s : ManagerState) : Prop :=
  ∀ p ∈ s.diagnosticsByConfig, ':' ∉ p.1.data

/-- The inductive invariant for the store-cache agreement argument. -/
def managerInv (s : ManagerState) : Prop :=
  colonFreeStoreKeys s ∧ storeCacheAgree s

/-- A project whose config path is an ordinary colon-free path. -/
def collideCfgOne : TSProjectConfig :=
  { configPath := "x/tsconfig.json", name := some "one", rootDir := some "x" }

/-- A project whose config path itself contains a colon, chosen so that
its composite cache keys collide with those of collideCfgOne. -/
def collideCfgTwo : TSProjectConfig :=
  { configPath := "x/tsconfig.json:y/tsconfig.json", name := some "two", rootDir := some "x" }

/-- A state reached by starting both colliding projects and ingesting one
diagnostic in each: both ingests write the same composite cache key even
though the (config, file) pairs differ. -/
def collidingState : ManagerState :=
  runOps (start allFs (initialState [collideCfgOne, collideCfgTwo] 0))
    [ManagerOp.ingest collideCfgOne (tsDiagAt "y/tsconfig.json:z.ts" 1 1 "from project one"),
     ManagerOp.ingest collideCfgTwo (tsDiagAt "z.ts" 1 1 "from project two")]

/-- A detection environment whose project root carries both a
pnpm-workspace.yaml and a package.json with a workspaces field. -/
def bothMarkersEnv : DetectEnv :=
  { fileExists := fun _ => true
    parsedPackageJson := some { workspaces := some (WorkspacesField.arr ["packages/*"])
                                packageManager := some "yarn@4.0.0" }
    pnpmPackages := [cfgApp]
    npmPackages := [{ configPath := "other/tsconfig.json", name := some "other",
                      rootDir := some "other" }]
    rushPackages := []
    lernaPackages := [] }

/-- A detection environment with no workspace marker at all. -/
def noMarkersEnv : DetectEnv :=
  { fileExists := fun _ => false
    parsedPackageJson := none
    pnpmPackages := []
    npmPackages := []
    rushPackages := []
    lernaPackages := [] }

/-! ## Helper lemmas -/

theorem assocGet_assocSet {α β : Type} [DecidableEq α]
    (l : List (α × β)) (k : α) (v : β) (k' : α) :
    assocGet (assocSet l k v) k' = if k' = k then some v else assocGet l k' := by
  induction l with
  | nil =>
    by_cases h : k' = k
    · subst h; simp [assocSet, assocGet]
    · simp [assocSet, assocGet, h, Ne.symm h]
  | cons p rest ih =>
    obtain ⟨pk, pv⟩ := p
    by_cases hpk : pk = k
    · subst hpk
      by_cases h : k' = pk
      · subst h; simp [assocSet, assocGet]
      · simp [assocSet, assocGet, h, Ne.symm h]
    · by_cases h1 : pk = k'
      · subst h1
        simp [assocSet, assocGet, hpk]
      · simp [assocSet, assocGet, hpk, h1, ih]

theorem assocGet_assocDelete {α β : Type} [DecidableEq α]
    (l : List (α × β)) (k : α) (k' : α) :
    assocGet (assocDelete l k) k' = if k' = k then none else assocGet l k' := by
  induction l with
  | nil => simp [assocDelete, assocGet]
  | cons p rest ih =>
    obtain ⟨pk, pv⟩ := p
    by_cases hpk : pk = k
    · subst hpk
      by_cases h : k' = pk
      · subst h; simp [assocDelete, assocGet, ih]
      · simp [assocDelete, assocGet, h, Ne.symm h, ih]
    · by_cases h1 : pk = k'
      · subst h1
        simp [assocDelete, assocGet, hpk, Ne.symm hpk]
      · simp [assocDelete, assocGet, hpk, h1, ih]

theorem mem_assocSet {α β : Type} [DecidableEq α]
    (l : List (α × β)) (k : α) (v : β) (p : α × β) :
    p ∈ assocSet l k v → p = (k, v) ∨ p ∈ l := by
  induction l with
  | nil =>
    intro h
    simp only [assocSet, List.mem_singleton] at h
    exact Or.inl h
  | cons q rest ih =>
    obtain ⟨qk, qv⟩ := q
    by_cases hq : qk = k
    · subst hq
      intro hm
      simp only [assocSet, if_pos rfl] at hm
      rcases List.mem_cons.mp hm with h1 | h1
      · exact Or.inl h1
      · exact Or.inr (List.mem_cons_of_mem _ h1)
    · intro hm
      simp only [assocSet, if_neg hq] at hm
      rcases List.mem_cons.mp hm with h1 | h1
      · exact Or.inr (List.mem_cons.mpr (Or.inl h1))
      · rcases ih h1 with h2 | h2
        · exact Or.inl h2
        · exact Or.inr (List.mem_cons_of_mem _ h2)

theorem assocGet_mem {α β : Type} [DecidableEq α]
    (l : List (α × β)) (k : α) (v : β) :
    assocGet l k = some v → (k, v) ∈ l := by
  induction l with
  | nil => intro h; simp [assocGet] at h
  | cons q rest ih =>
    obtain ⟨qk, qv⟩ := q
    by_cases hq : qk = k
    · subst hq
      intro hg
      simp only [assocGet, if_pos rfl] at hg
      obtain rfl := Option.some.inj hg
      exact List.mem_cons_self _ _
    · intro hg
      simp only [assocGet, if_neg hq] at hg
      exact List.mem_cons_of_mem _ (ih hg)

theorem assocGet_map_snd {α β γ : Type} [DecidableEq α]
    (l : List (α × β)) (f : β → γ) (k : α) :
    assocGet (l.map (fun p => (p.1, f p.2))) k = (assocGet l k).map f := by
  induction l with
  | nil => simp [assocGet]
  | cons p rest ih =>
    obtain ⟨pk, pv⟩ := p
    by_cases h : pk = k
    · subst h; simp [assocGet]
    · simp [assocGet, h, ih]

theorem DiagnosticCache.get_entries (c : DiagnosticCache) (key : String) :
    (c.get key).2.entries = c.entries := by
  unfold DiagnosticCache.get
  cases assocGet c.entries key <;> rfl

theorem fileLookupStep_entries (filePath : String)
    (acc : List Diagnostic × DiagnosticCache) (config : TSProjectConfig) :
    (fileLookupStep filePath acc config).2.entries = acc.2.entries := by
  unfold fileLookupStep DiagnosticCache.get
  cases assocGet acc.2.entries (config.configPath ++ ":" ++ filePath) <;> rfl

theorem foldl_fileLookupStep_entries (filePath : String) :
    ∀ (configs : List TSProjectConfig) (acc : List Diagnostic × DiagnosticCache),
      ((configs.foldl (fileLookupStep filePath) acc).2).entries = acc.2.entries := by
  intro configs
  induction configs with
  | nil => intro acc; rfl
  | cons c rest ih =>
    intro acc
    simp only [List.foldl_cons]
    rw [ih, fileLookupStep_entries]

theorem foldl_fileLookupStep_nil (filePath : String) :
    ∀ (configs : List TSProjectConfig) (acc : List Diagnostic × DiagnosticCache),
      (∀ c ∈ configs, assocGet acc.2.entries (c.configPath ++ ":" ++ filePath) = none) →
      (configs.foldl (fileLookupStep filePath) acc).1 = acc.1 := by
  intro configs
  induction configs with
  | nil => intro acc _; rfl
  | cons c rest ih =>
    intro acc h
    have hc := h c (List.mem_cons_self _ _)
    have hstep : fileLookupStep filePath acc c = (acc.1, (acc.2.get (c.configPath ++ ":" ++ filePath)).2) := by
      unfold fileLookupStep DiagnosticCache.get
      rw [hc]
    simp only [List.foldl_cons, hstep]
    refine ih _ ?_
    intro c2 hc2
    rw [DiagnosticCache.get_entries]
    exact h c2 (List.mem_cons_of_mem _ hc2)

/-! ## Claim theorems -/

/-- C1: the claim requires each new compilation pass to replace a file's
bucket wholesale. In the code onDiagnostic appends: after a diagnostic in
a first pass, a pass-complete watch status change, and a diagnostic for
the same file in a second pass, the stored bucket, the cache entry and
the file query all hold the union of both passes rather than only the
latest pass's diagnostic. -/
theorem c1_second_pass_appends_instead_of_replacing :
    assocGet ((assocGet twoPassState.diagnosticsByConfig "proj/tsconfig.json").getD [])
        "proj/a.ts" =
      some [convertDiagnostic (tsDiagAt "proj/a.ts" 3 5 "first pass"),
            convertDiagnostic (tsDiagAt "proj/a.ts" 3 5 "second pass")] ∧
    (assocGet twoPassState.cache.entries "proj/tsconfig.json:proj/a.ts").map
        CacheEntry.diagnostics =
      some [convertDiagnostic (tsDiagAt "proj/a.ts" 3 5 "first pass"),
            convertDiagnostic (tsDiagAt "proj/a.ts" 3 5 "second pass")] ∧
    (getFileDiagnostics twoPassState "proj/a.ts").1.diagnostics =
      [convertDiagnostic (tsDiagAt "proj/a.ts" 3 5 "first pass"),
       convertDiagnostic (tsDiagAt "proj/a.ts" 3 5 "second pass")] ∧
    convertDiagnostic (tsDiagAt "proj/a.ts" 3 5 "first pass") ≠
      convertDiagnostic (tsDiagAt "proj/a.ts" 3 5 "second pass") := by
  decide

/-- C2: the claim asserts that the glob translation maps a double
asterisk to a match-anything regex fragment and a single asterisk to a
match-anything-but-slash fragment, making the default deny-list entry
match node_modules paths. In the code the two asterisk rewrites look for
backslash-escaped asterisks, which the escape pass deliberately never
produces, so the asterisks survive untranslated: the default pattern
yields the regex source caret-star-star-slash-node_modules-slash-star-
star-dollar instead of the intended translation. -/
theorem c2_glob_wildcards_not_translated :
    globToRegex "**/node_modules/**" = "^**/node_modules/**$" ∧
    globToRegex "*" = "^*$" ∧
    globToRegex "**/node_modules/**" ≠ "^.*/node_modules/.*$" := by
  decide

/-- C3: the claim requires one-based lines and columns, with a compiler
diagnostic at zero-based line 0, character 0 reported as line 1,
column 1. The code tests position.line and position.character for
truthiness, so the value 0 falls into the fallback branch and the
diagnostic at the start of its file is reported with line 0 and
column 0. -/
theorem c3_file_start_reported_as_line_zero :
    (convertDiagnostic tsDiagAtFileStart).line = 0 ∧
    (convertDiagnostic tsDiagAtFileStart).column = 0 := by
  decide

/-- C7: getStats reports hit rate 0 when no request has occurred, and
hits divided by hits plus misses otherwise; starting from fresh
statistics, after exactly one get that hits and one get that misses the
hit rate equals one half. -/
theorem c7_hit_rate :
    (∀ c : DiagnosticCache, c.hits + c.misses = 0 → c.getStats.hitRate = 0) ∧
    (∀ c : DiagnosticCache, 0 < c.hits + c.misses →
      c.getStats.hitRate = (c.hits : ℚ) / ((c.hits : ℚ) + (c.misses : ℚ))) ∧
    oneHitOneMissCache.hits = 1 ∧
    oneHitOneMissCache.misses = 1 ∧
    oneHitOneMissCache.getStats.hitRate = 1 / 2 := by
  refine ⟨?_, ?_, by decide, by decide, ?_⟩
  · intro c h
    simp [DiagnosticCache.getStats, h]
  · intro c h
    simp only [DiagnosticCache.getStats, if_pos h]
    push_cast
    ring
  · have h1 : oneHitOneMissCache.hits = 1 := by decide
    have h2 : oneHitOneMissCache.misses = 1 := by decide
    simp [DiagnosticCache.getStats, h1, h2]

/-- C7 witness: the two general statements of c7_hit_rate applied at the
fresh cache and at the one-hit-one-miss cache. -/
theorem c7_hit_rate_witness :
    DiagnosticCache.empty.getStats.hitRate = 0 ∧
    oneHitOneMissCache.getStats.hitRate =
      (oneHitOneMissCache.hits : ℚ) /
        ((oneHitOneMissCache.hits : ℚ) + (oneHitOneMissCache.misses : ℚ)) :=
  ⟨c7_hit_rate.1 DiagnosticCache.empty (by decide),
   c7_hit_rate.2.1 oneHitOneMissCache (by decide)⟩

/-- C8: stop is idempotent: after one stop the manager is inactive (also
as reported by getStatus), every watcher in the session table has been
closed and the table is empty, and a second stop returns the state
entirely unchanged — sessions, store, cache and statistics included —
regardless of how many projects started. -/
theorem c8_stop_idempotent :
    ∀ s : ManagerState,
      (stop s).isActive = false ∧
      (getStatus (stop s)).active = false ∧
      stop (stop s) = stop s ∧
      (s.isActive = true →
        (stop s).watchers = [] ∧
        ∀ w ∈ s.watchers, w ∈ (stop s).closedWatchers) := by
  intro s
  by_cases h : s.isActive
  · refine ⟨by simp [stop, h], by simp [stop, getStatus, h], by simp [stop, h], ?_⟩
    intro _
    refine ⟨by simp [stop, h], ?_⟩
    intro w hw
    simp only [stop, if_pos h, List.mem_append]
    exact Or.inr hw
  · have h0 : s.isActive = false := by simpa using h
    refine ⟨by simp [stop, h0], by simp [stop, getStatus, h0], by simp [stop, h0], ?_⟩
    intro hcontra
    rw [hcontra] at h0
    exact absurd h0 (by simp)

/-- C8 witness: c8_stop_idempotent applied to a started single-project
manager, whose active flag discharges the hypothesis. -/
theorem c8_stop_idempotent_witness :
    (stop (start allFs (initialState [cfgApp] 0))).watchers = [] ∧
    "proj/tsconfig.json" ∈ (stop (start allFs (initialState [cfgApp] 0))).closedWatchers := by
  have h := (c8_stop_idempotent (start allFs (initialState [cfgApp] 0))).2.2.2 (by decide)
  exact ⟨h.1, h.2 "proj/tsconfig.json" (by decide)⟩

/-- C5: when the cache holds no entry for a file path under any project
namespace, getFileDiagnostics returns a successful result with an empty
diagnostics list, all category totals zero and cacheHit false; moreover
the lookup consults only the configs, the cache and the clock — two
states agreeing on those three fields produce identical results, so the
diagnostic store is never scanned. -/
theorem c5_file_query_cache_only_empty_on_miss :
    (∀ (s : ManagerState) (filePath : String),
      (∀ c ∈ s.configs, assocGet s.cache.entries (c.configPath ++ ":" ++ filePath) = none) →
      (getFileDiagnostics s filePath).1.diagnostics = [] ∧
      (getFileDiagnostics s filePath).1.totalErrors = 0 ∧
      (getFileDiagnostics s filePath).1.totalWarnings = 0 ∧
      (getFileDiagnostics s filePath).1.totalSuggestions = 0 ∧
      (getFileDiagnostics s filePath).1.totalMessages = 0 ∧
      (getFileDiagnostics s filePath).1.cacheHit = false) ∧
    (∀ (s t : ManagerState) (filePath : String),
      s.configs = t.configs → s.cache = t.cache → s.now = t.now →
      (getFileDiagnostics s filePath).1 = (getFileDiagnostics t filePath).1) := by
  constructor
  · intro s filePath h
    have hr : (s.configs.foldl (fileLookupStep filePath) ([], s.cache)).1 = [] := by
      refine foldl_fileLookupStep_nil filePath s.configs ([], s.cache) ?_
      intro c hc
      exact h c hc
    simp [getFileDiagnostics, hr, buildDiagnosticResult]
  · intro s t filePath h1 h2 h3
    simp only [getFileDiagnostics]
    rw [h1, h2, h3]

/-- C5 witness: the empty-result statement of
c5_file_query_cache_only_empty_on_miss applied to a freshly started
single-project manager, whose cache is empty, at a file that was never
diagnosed. -/
theorem c5_file_query_witness :
    (getFileDiagnostics (start allFs (initialState [cfgApp] 7)) "proj/never.ts").1.diagnostics = [] ∧
    (getFileDiagnostics (start allFs (initialState [cfgApp] 7)) "proj/never.ts").1.cacheHit = false := by
  have h := c5_file_query_cache_only_empty_on_miss.1
    (start allFs (initialState [cfgApp] 7)) "proj/never.ts" (by decide)
  exact ⟨h.1, h.2.2.2.2.2⟩

/-- C6: getPackageDiagnostics returns null exactly when no configured
project carries the requested name, and it is a total function; for a
found project that currently stores zero diagnostics it returns a present
result over the empty list, whose diagnostics and category totals are all
empty, so an unknown package is distinguishable from a known package
without diagnostics. -/
theorem c6_package_query_absent_vs_empty :
    (∀ (s : ManagerState) (packageName : String),
      getPackageDiagnostics s packageName = none ↔
        ∀ c ∈ s.configs, c.name ≠ some packageName) ∧
    (∀ (s : ManagerState) (packageName : String) (c : TSProjectConfig),
      s.configs.find? (fun x => x.name == some packageName) = some c →
      getAllDiagnosticsForConfig s c.configPath = [] →
      getPackageDiagnostics s packageName =
        some (buildDiagnosticResult s.now [] packageName true) ∧
      (buildDiagnosticResult s.now [] packageName true).diagnostics = [] ∧
      (buildDiagnosticResult s.now [] packageName true).totalErrors = 0 ∧
      (buildDiagnosticResult s.now [] packageName true).totalWarnings = 0 ∧
      (buildDiagnosticResult s.now [] packageName true).totalSuggestions = 0 ∧
      (buildDiagnosticResult s.now [] packageName true).totalMessages = 0) := by
  constructor
  · intro s packageName
    cases hf : s.configs.find? (fun x => x.name == some packageName) with
    | none =>
      simp only [getPackageDiagnostics, hf]
      rw [List.find?_eq_none] at hf
      constructor
      · intro _ c hc
        have := hf c hc
        simpa using this
      · intro _
        trivial
    | some c =>
      have hmem := List.mem_of_find?_eq_some hf
      have hp := List.find?_some hf
      simp only [getPackageDiagnostics, hf]
      constructor
      · intro hcontra
        exact absurd hcontra (by simp)
      · intro hall
        exact absurd (by simpa using hp) (hall c hmem)
  · intro s packageName c hf hempty
    refine ⟨?_, rfl, rfl, rfl, rfl, rfl⟩
    simp [getPackageDiagnostics, hf, hempty]

/-- C6 witness: c6_package_query_absent_vs_empty applied to a started
single-project manager: the known package app with zero stored
diagnostics yields the present empty result, and the unknown package
missing yields null. -/
theorem c6_package_query_witness :
    getPackageDiagnostics (start allFs (initialState [cfgApp] 3)) "app" =
      some (buildDiagnosticResult (start allFs (initialState [cfgApp] 3)).now [] "app" true) ∧
    getPackageDiagnostics (start allFs (initialState [cfgApp] 3)) "missing" = none := by
  constructor
  · exact (c6_package_query_absent_vs_empty.2 (start allFs (initialState [cfgApp] 3))
      "app" cfgApp (by decide) (by decide)).1
  · exact (c6_package_query_absent_vs_empty.1 (start allFs (initialState [cfgApp] 3))
      "missing").mpr (by decide)

theorem detectWorkspaceTail_packages (env : DetectEnv) (root : String)
    (info : WorkspaceInfo) (h : detectWorkspaceTail env root = Except.ok info) :
    info.packages = env.rushPackages ∨ info.packages = env.lernaPackages ∨
    info.packages = [{ configPath := pathJoin root "tsconfig.json",
                       name := some "root", rootDir := some root }] := by
  by_cases h1 : env.fileExists (pathJoin root "rush.json")
  · simp only [detectWorkspaceTail, if_pos h1, Except.ok.injEq] at h
    subst h
    exact Or.inl rfl
  · by_cases h2 : env.fileExists (pathJoin root "lerna.json")
    · simp only [detectWorkspaceTail, if_neg h1, if_pos h2, Except.ok.injEq] at h
      subst h
      exact Or.inr (Or.inl rfl)
    · simp only [detectWorkspaceTail, if_neg h1, if_neg h2, Except.ok.injEq] at h
      subst h
      exact Or.inr (Or.inr rfl)

/-- C9: the pnpm marker always wins: whenever pnpm-workspace.yaml exists
the result is type pnpm with exactly the pnpm-derived package list,
regardless of any package.json workspaces field; when no marker matches
the result is the single-project configuration; and any successful
detection returns exactly one marker's package list, never a merge. -/
theorem c9_workspace_marker_priority :
    (∀ (env : DetectEnv) (root : String),
      env.fileExists (pathJoin root "pnpm-workspace.yaml") = true →
        detectWorkspace env root =
          Except.ok { type := "pnpm", packages := env.pnpmPackages,
                      rootConfig := some (pathJoin root "tsconfig.json") }) ∧
    (∀ (env : DetectEnv) (root : String),
      env.fileExists (pathJoin root "pnpm-workspace.yaml") = false →
      (env.fileExists (pathJoin root "package.json") = false ∨
        (∃ pkg, env.parsedPackageJson = some pkg ∧ pkg.workspaces = none)) →
      env.fileExists (pathJoin root "rush.json") = false →
      env.fileExists (pathJoin root "lerna.json") = false →
        detectWorkspace env root =
          Except.ok { type := "single",
                      packages := [{ configPath := pathJoin root "tsconfig.json",
                                     name := some "root", rootDir := some root }],
                      rootConfig := none }) ∧
    (∀ (env : DetectEnv) (root : String) (info : WorkspaceInfo),
      detectWorkspace env root = Except.ok info →
        info.packages = env.pnpmPackages ∨ info.packages = env.npmPackages ∨
        info.packages = env.rushPackages ∨ info.packages = env.lernaPackages ∨
        info.packages = [{ configPath := pathJoin root "tsconfig.json",
                           name := some "root", rootDir := some root }]) := by
  refine ⟨?_, ?_, ?_⟩
  · intro env root h
    simp [detectWorkspace, h]
  · intro env root h1 h2 h3 h4
    have htail : detectWorkspaceTail env root =
        Except.ok { type := "single",
                    packages := [{ configPath := pathJoin root "tsconfig.json",
                                   name := some "root", rootDir := some root }],
                    rootConfig := none } := by
      simp [detectWorkspaceTail, h3, h4]
    rcases h2 with hpj | ⟨pkg, hp, hw⟩
    · simp [detectWorkspace, h1, hpj, htail]
    · by_cases hpj : env.fileExists (pathJoin root "package.json")
      · simp [detectWorkspace, h1, hpj, hp, hw, htail]
      · simp [detectWorkspace, h1, hpj, htail]
  · intro env root info h
    by_cases h1 : env.fileExists (pathJoin root "pnpm-workspace.yaml")
    · simp only [detectWorkspace, if_pos h1, Except.ok.injEq] at h
      subst h
      exact Or.inl rfl
    · by_cases h2 : env.fileExists (pathJoin root "package.json")
      · cases hp : env.parsedPackageJson with
        | none =>
          simp [detectWorkspace, h1, h2, hp] at h
        | some pkg =>
          cases hw : pkg.workspaces with
          | some w =>
            simp only [detectWorkspace, if_neg h1, if_pos h2, hp, hw,
              Except.ok.injEq] at h
            subst h
            exact Or.inr (Or.inl rfl)
          | none =>
            simp only [detectWorkspace, if_neg h1, if_pos h2, hp, hw] at h
            rcases detectWorkspaceTail_packages env root info h with hh | hh | hh
            · exact Or.inr (Or.inr (Or.inl hh))
            · exact Or.inr (Or.inr (Or.inr (Or.inl hh)))
            · exact Or.inr (Or.inr (Or.inr (Or.inr hh)))
      · simp only [detectWorkspace, if_neg h1, if_neg h2] at h
        rcases detectWorkspaceTail_packages env root info h with hh | hh | hh
        · exact Or.inr (Or.inr (Or.inl hh))
        · exact Or.inr (Or.inr (Or.inr (Or.inl hh)))
        · exact Or.inr (Or.inr (Or.inr (Or.inr hh)))

/-- C9 witness: c9_workspace_marker_priority applied to an environment in
which both the pnpm manifest and a package.json with a workspaces field
exist (the pnpm marker wins with its own package list), and to an
environment with no marker at all (single-project fallback). -/
theorem c9_workspace_marker_priority_witness :
    detectWorkspace bothMarkersEnv "root" =
      Except.ok { type := "pnpm", packages := bothMarkersEnv.pnpmPackages,
                  rootConfig := some (pathJoin "root" "tsconfig.json") } ∧
    detectWorkspace noMarkersEnv "root" =
      Except.ok { type := "single",
                  packages := [{ configPath := pathJoin "root" "tsconfig.json",
                                 name := some "root", rootDir := some "root" }],
                  rootConfig := none } := by
  constructor
  · exact c9_workspace_marker_priority.1 bothMarkersEnv "root" (by decide)
  · exact c9_workspace_marker_priority.2.1 noMarkersEnv "root" (by decide)
      (Or.inl (by decide)) (by decide) (by decide)

theorem foldl_add_bucket_length (l : List (String × FileDiagnosticMap)) :
    ∀ n : Nat, l.foldl (fun total p => total + p.2.length) n =
      n + (l.map (fun p => p.2.length)).sum := by
  induction l with
  | nil => intro n; simp
  | cons p rest ih =>
    intro n
    simp only [List.foldl_cons, List.map_cons, List.sum_cons, ih]
    omega

theorem startWatchingConfig_isActive (env : FsEnv) (s : ManagerState)
    (config : TSProjectConfig) :
    (startWatchingConfig env s config).isActive = s.isActive := by
  unfold startWatchingConfig
  by_cases h : env.fileExists config.configPath <;> simp [h]

theorem foldl_startWatchingConfig_isActive (env : FsEnv) :
    ∀ (configs : List TSProjectConfig) (s : ManagerState),
      (configs.foldl (startWatchingConfig env) s).isActive = s.isActive := by
  intro configs
  induction configs with
  | nil => intro s; rfl
  | cons c rest ih =>
    intro s
    simp only [List.foldl_cons, ih, startWatchingConfig_isActive]

theorem foldl_startWatchingConfig_empty_buckets (env : FsEnv) :
    ∀ (configs : List TSProjectConfig) (s : ManagerState),
      (∀ p ∈ s.diagnosticsByConfig, p.2 = ([] : FileDiagnosticMap)) →
      ∀ p ∈ (configs.foldl (startWatchingConfig env) s).diagnosticsByConfig,
        p.2 = ([] : FileDiagnosticMap) := by
  intro configs
  induction configs with
  | nil => intro s h; exact h
  | cons c rest ih =>
    intro s h
    refine ih _ ?_
    intro p hp
    unfold startWatchingConfig at hp
    by_cases hex : env.fileExists c.configPath
    · simp only [if_pos hex] at hp
      rcases mem_assocSet _ _ _ _ hp with h1 | h1
      · rw [h1]
      · exact h p h1
    · simp only [if_neg hex] at hp
      exact h p hp

/-- C10: the watched-files figure of getStatus equals the summed sizes of
the per-project bucket maps — the number of file paths holding a stored
diagnostic bucket — and not the number of files under watch: immediately
after start it is 0 even though the manager is active, and after
clearAllDiagnostics it is 0 again while the active flag is untouched. -/
theorem c10_watched_files_counts_stored_buckets :
    (∀ s : ManagerState,
      (getStatus s).watchedFiles =
        (s.diagnosticsByConfig.map (fun p => p.2.length)).sum) ∧
    (∀ (env : FsEnv) (configs : List TSProjectConfig) (now : Nat),
      (getStatus (start env (initialState configs now))).watchedFiles = 0 ∧
      (getStatus (start env (initialState configs now))).active = true) ∧
    (∀ s : ManagerState,
      (getStatus (clearAllDiagnostics s)).watchedFiles = 0 ∧
      (getStatus (clearAllDiagnostics s)).active = s.isActive) := by
  refine ⟨?_, ?_, ?_⟩
  · intro s
    simp only [getStatus, getTotalFilesWatched]
    rw [foldl_add_bucket_length]
    omega
  · intro env configs now
    constructor
    · simp only [getStatus, getTotalFilesWatched]
      have hstart : start env (initialState configs now) =
          (initialState configs now).configs.foldl (startWatchingConfig env)
            { initialState configs now with isActive := true } := by
        simp [start, initialState]
      rw [hstart, foldl_add_bucket_length]
      have hempty := foldl_startWatchingConfig_empty_buckets env
        (initialState configs now).configs
        { initialState configs now with isActive := true }
        (by intro p hp; simp [initialState] at hp)
      have hz : ∀ x ∈ (((initialState configs now).configs.foldl (startWatchingConfig env)
          { initialState configs now with isActive := true }).diagnosticsByConfig.map
            (fun p => p.2.length)), x = 0 := by
        intro x hx
        rcases List.mem_map.mp hx with ⟨p, hp, hpx⟩
        rw [← hpx, hempty p hp]
        rfl
      rw [List.sum_eq_zero hz]
      omega
    · simp only [getStatus]
      have hstart : start env (initialState configs now) =
          (initialState configs now).configs.foldl (startWatchingConfig env)
            { initialState configs now with isActive := true } := by
        simp [start, initialState]
      rw [hstart, foldl_startWatchingConfig_isActive]
  · intro s
    constructor
    · simp only [getStatus, getTotalFilesWatched, clearAllDiagnostics]
      rw [foldl_add_bucket_length]
      have hz : ∀ x ∈ ((s.diagnosticsByConfig.map
          (fun p => (p.1, ([] : FileDiagnosticMap)))).map (fun p => p.2.length)), x = 0 := by
        intro x hx
        rcases List.mem_map.mp hx with ⟨p, hp, hpx⟩
        rcases List.mem_map.mp hp with ⟨q, _, hqp⟩
        rw [← hpx, ← hqp]
        rfl
      rw [List.sum_eq_zero hz]
      omega
    · rfl

theorem colon_sep_inj : ∀ (l1 l2 r1 r2 : List Char),
    ':' ∉ l1 → ':' ∉ l2 → l1 ++ ':' :: r1 = l2 ++ ':' :: r2 →
    l1 = l2 ∧ r1 = r2 := by
  intro l1
  induction l1 with
  | nil =>
    intro l2 r1 r2 _ h2 h
    cases l2 with
    | nil =>
      simp only [List.nil_append, List.cons.injEq] at h
      exact ⟨rfl, h.2⟩
    | cons d l2' =>
      simp only [List.nil_append, List.cons_append, List.cons.injEq] at h
      have hmem : ':' ∈ d :: l2' := by
        rw [h.1]
        exact List.mem_cons_self _ _
      exact absurd hmem h2
  | cons c l1' ih =>
    intro l2 r1 r2 h1 h2 h
    cases l2 with
    | nil =>
      simp only [List.cons_append, List.nil_append, List.cons.injEq] at h
      have hmem : ':' ∈ c :: l1' := by
        rw [← h.1]
        exact List.mem_cons_self _ _
      exact absurd hmem h1
    | cons d l2' =>
      simp only [List.cons_append, List.cons.injEq] at h
      obtain ⟨hcd, hrest⟩ := h
      subst hcd
      have hres := ih l2' r1 r2
        (fun hm => h1 (List.mem_cons_of_mem _ hm))
        (fun hm => h2 (List.mem_cons_of_mem _ hm)) hrest
      exact ⟨by rw [hres.1], hres.2⟩

theorem colon_append_inj (a b x y : String)
    (ha : ':' ∉ a.data) (hb : ':' ∉ b.data)
    (h : a ++ ":" ++ x = b ++ ":" ++ y) : a = b ∧ x = y := by
  have hd := congrArg String.data h
  rw [String.data_append, String.data_append, String.data_append,
    String.data_append] at hd
  have hcolon : (":" : String).data = [':'] := rfl
  rw [hcolon] at hd
  have hd2 : a.data ++ ':' :: x.data = b.data ++ ':' :: y.data := by
    simpa [List.append_assoc] using hd
  obtain ⟨h1, h2⟩ := colon_sep_inj a.data b.data x.data y.data ha hb hd2
  constructor
  · cases a
    cases b
    exact congrArg String.mk h1
  · cases x
    cases y
    exact congrArg String.mk h2

theorem managerInv_onDiagnostic (config : TSProjectConfig)
    (d : TsCompilerDiagnostic) (s : ManagerState) (h : managerInv s) :
    managerInv (onDiagnostic config d s) := by
  obtain ⟨hcf, hagree⟩ := h
  cases hm : assocGet s.diagnosticsByConfig config.configPath with
  | none =>
    unfold onDiagnostic
    rw [hm]
    exact ⟨hcf, hagree⟩
  | some diagnosticMap =>
    have hcfgP : ':' ∉ config.configPath.data :=
      hcf (config.configPath, diagnosticMap) (assocGet_mem _ _ _ hm)
    unfold onDiagnostic
    rw [hm]
    simp only []
    set conv := convertDiagnostic d with hconv
    set fn := conv.file with hfn
    set bucket' := (assocGet diagnosticMap fn).getD [] ++ [conv] with hbucket
    have hcf2 : colonFreeStoreKeys
        { s with
            diagnosticsByConfig := assocSet s.diagnosticsByConfig config.configPath
              (assocSet diagnosticMap fn bucket')
            cache := s.cache.set (config.configPath ++ ":" ++ fn) bucket' s.now } := by
      intro p hp
      rcases mem_assocSet _ _ _ _ hp with h1 | h1
      · rw [h1]
        exact hcfgP
      · exact hcf p h1
    refine ⟨hcf2, ?_⟩
    intro cfg m2 f b e hstore hfile hcache
    have hstore' := hstore
    rw [assocGet_assocSet] at hstore'
    have hcache' := hcache
    have hentries : ({ s with
        diagnosticsByConfig := assocSet s.diagnosticsByConfig config.configPath
          (assocSet diagnosticMap fn bucket')
        cache := s.cache.set (config.configPath ++ ":" ++ fn) bucket' s.now } :
          ManagerState).cache.entries =
        assocSet s.cache.entries (config.configPath ++ ":" ++ fn)
          { diagnostics := bucket', timestamp := s.now } := rfl
    rw [hentries, assocGet_assocSet] at hcache'
    by_cases hkey : cfg ++ ":" ++ f = config.configPath ++ ":" ++ fn
    · have hcfgFree : ':' ∉ cfg.data := by
        have hmem := assocGet_mem _ _ _ hstore
        exact hcf2 (cfg, m2) hmem
      obtain ⟨hceq, hfeq⟩ := colon_append_inj cfg config.configPath f fn
        hcfgFree hcfgP hkey
      subst hceq
      subst hfeq
      rw [if_pos rfl] at hstore' hcache'
      obtain rfl := Option.some.inj hstore'
      obtain rfl := Option.some.inj hcache'
      rw [assocGet_assocSet, if_pos rfl] at hfile
      obtain rfl := Option.some.inj hfile
      rfl
    · rw [if_neg hkey] at hcache'
      by_cases hcfg : cfg = config.configPath
      · subst hcfg
        rw [if_pos rfl] at hstore'
        obtain rfl := Option.some.inj hstore'
        by_cases hf : f = fn
        · exact absurd (by rw [hf]) hkey
        · rw [assocGet_assocSet, if_neg hf] at hfile
          exact hagree config.configPath diagnosticMap f b e hm hfile hcache'
      · rw [if_neg hcfg] at hstore'
        exact hagree cfg m2 f b e hstore' hfile hcache'

theorem cacheDeleteFold_some (filePath : String) :
    ∀ (l : List (String × FileDiagnosticMap)) (c : DiagnosticCache)
      (key : String) (e : CacheEntry),
      assocGet ((l.foldl (fun c2 p => c2.delete (p.1 ++ ":" ++ filePath)) c).entries)
        key = some e →
      assocGet c.entries key = some e := by
  intro l
  induction l with
  | nil => intro c key e h; exact h
  | cons p rest ih =>
    intro c key e h
    simp only [List.foldl_cons] at h
    have h2 := ih _ key e h
    have h3 : (c.delete (p.1 ++ ":" ++ filePath)).entries =
        assocDelete c.entries (p.1 ++ ":" ++ filePath) := rfl
    rw [h3, assocGet_assocDelete] at h2
    by_cases hk : key = p.1 ++ ":" ++ filePath
    · rw [if_pos hk] at h2
      exact absurd h2 (by simp)
    · rw [if_neg hk] at h2
      exact h2

theorem managerInv_clearFile (s : ManagerState) (filePath : String)
    (h : managerInv s) : managerInv (clearFileDiagnostics s filePath) := by
  obtain ⟨hcf, hagree⟩ := h
  constructor
  · intro p hp
    rcases List.mem_map.mp hp with ⟨q, hq, hqp⟩
    rw [← hqp]
    exact hcf q hq
  · intro cfg m2 f b e hstore hfile hcache
    have hstore' : (assocGet s.diagnosticsByConfig cfg).map
        (fun m => assocDelete m filePath) = some m2 := by
      have hthis := hstore
      rw [show (clearFileDiagnostics s filePath).diagnosticsByConfig =
        s.diagnosticsByConfig.map (fun p => (p.1, assocDelete p.2 filePath)) from rfl] at hthis
      have hmap : assocGet (s.diagnosticsByConfig.map
          (fun p => (p.1, assocDelete p.2 filePath))) cfg =
          (assocGet s.diagnosticsByConfig cfg).map (fun m => assocDelete m filePath) :=
        assocGet_map_snd s.diagnosticsByConfig (fun m => assocDelete m filePath) cfg
      rw [hmap] at hthis
      exact hthis
    rcases Option.map_eq_some'.mp hstore' with ⟨m, hm, hmm⟩
    rw [← hmm] at hfile
    rw [assocGet_assocDelete] at hfile
    by_cases hf : f = filePath
    · rw [if_pos hf] at hfile
      exact absurd hfile (by simp)
    · rw [if_neg hf] at hfile
      have hcache' : assocGet s.cache.entries (cfg ++ ":" ++ f) = some e := by
        have := hcache
        rw [show (clearFileDiagnostics s filePath).cache =
          s.diagnosticsByConfig.foldl
            (fun c p => c.delete (p.1 ++ ":" ++ filePath)) s.cache from rfl] at this
        exact cacheDeleteFold_some filePath s.diagnosticsByConfig s.cache _ e this
      exact hagree cfg m f b e hm hfile hcache'

theorem managerInv_clearAll (s : ManagerState) (h : managerInv s) :
    managerInv (clearAllDiagnostics s) := by
  obtain ⟨hcf, _⟩ := h
  constructor
  · intro p hp
    rcases List.mem_map.mp hp with ⟨q, hq, hqp⟩
    rw [← hqp]
    exact hcf q hq
  · intro cfg m2 f b e _ _ hcache
    have : (clearAllDiagnostics s).cache.entries = [] := rfl
    rw [this] at hcache
    exact absurd hcache (by simp [assocGet])

theorem managerInv_queryFile (s : ManagerState) (filePath : String)
    (h : managerInv s) : managerInv (getFileDiagnostics s filePath).2 := by
  obtain ⟨hcf, hagree⟩ := h
  have hstore : (getFileDiagnostics s filePath).2.diagnosticsByConfig =
      s.diagnosticsByConfig := rfl
  have hentries : (getFileDiagnostics s filePath).2.cache.entries =
      s.cache.entries := by
    have : (getFileDiagnostics s filePath).2.cache =
        (s.configs.foldl (fileLookupStep filePath) ([], s.cache)).2 := rfl
    rw [this, foldl_fileLookupStep_entries]
  constructor
  · intro p hp
    rw [hstore] at hp
    exact hcf p hp
  · intro cfg m2 f b e hst hfile hcache
    rw [hstore] at hst
    rw [hentries] at hcache
    exact hagree cfg m2 f b e hst hfile hcache

theorem managerInv_statusChange (config : TSProjectConfig) (messageText : String)
    (s : ManagerState) (h : managerInv s) :
    managerInv (onWatchStatusChange config messageText s) := by
  unfold onWatchStatusChange
  by_cases hc : (jsIncludes "Found 0 errors".data messageText.data ||
      jsIncludes "Watching for file changes".data messageText.data) = true
  · rw [if_pos hc]
    exact ⟨fun p hp => h.1 p hp, fun cfg m2 f b e h1 h2 h3 => h.2 cfg m2 f b e h1 h2 h3⟩
  · rw [if_neg hc]
    exact h

theorem managerInv_stepOp (s : ManagerState) (op : ManagerOp)
    (h : managerInv s) : managerInv (stepOp s op) := by
  cases op with
  | ingest config d => exact managerInv_onDiagnostic config d s h
  | statusChange config messageText => exact managerInv_statusChange config messageText s h
  | clearFile filePath => exact managerInv_clearFile s filePath h
  | clearAll => exact managerInv_clearAll s h
  | queryFile filePath => exact managerInv_queryFile s filePath h

theorem managerInv_runOps : ∀ (ops : List ManagerOp) (s : ManagerState),
    managerInv s → managerInv (runOps s ops) := by
  intro ops
  induction ops with
  | nil => intro s h; exact h
  | cons op rest ih =>
    intro s h
    exact ih _ (managerInv_stepOp s op h)

theorem foldl_startWatchingConfig_cache (env : FsEnv) :
    ∀ (configs : List TSProjectConfig) (s : ManagerState),
      (configs.foldl (startWatchingConfig env) s).cache = s.cache := by
  intro configs
  induction configs with
  | nil => intro s; rfl
  | cons c rest ih =>
    intro s
    simp only [List.foldl_cons, ih]
    unfold startWatchingConfig
    by_cases hex : env.fileExists c.configPath <;> simp [hex]

theorem foldl_startWatchingConfig_store_keys (env : FsEnv) :
    ∀ (configs : List TSProjectConfig) (s : ManagerState)
      (p : String × FileDiagnosticMap),
      p ∈ (configs.foldl (startWatchingConfig env) s).diagnosticsByConfig →
      p ∈ s.diagnosticsByConfig ∨ ∃ c ∈ configs, p.1 = c.configPath := by
  intro configs
  induction configs with
  | nil =>
    intro s p hp
    exact Or.inl hp
  | cons c rest ih =>
    intro s p hp
    simp only [List.foldl_cons] at hp
    rcases ih _ p hp with h1 | ⟨c2, hc2, hpc2⟩
    · unfold startWatchingConfig at h1
      by_cases hex : env.fileExists c.configPath
      · rw [if_pos hex] at h1
        rcases mem_assocSet _ _ _ _ h1 with h2 | h2
        · exact Or.inr ⟨c, List.mem_cons_self _ _, by rw [h2]⟩
        · exact Or.inl h2
      · rw [if_neg hex] at h1
        exact Or.inl h1
    · exact Or.inr ⟨c2, List.mem_cons_of_mem _ hc2, hpc2⟩

theorem managerInv_start (env : FsEnv) (configs : List TSProjectConfig) (now : Nat)
    (hc : ∀ c ∈ configs, ':' ∉ c.configPath.data) :
    managerInv (start env (initialState configs now)) := by
  have hstart : start env (initialState configs now) =
      (initialState configs now).configs.foldl (startWatchingConfig env)
        { initialState configs now with isActive := true } := by
    simp [start, initialState]
  rw [hstart]
  constructor
  · intro p hp
    rcases foldl_startWatchingConfig_store_keys env _ _ p hp with h1 | ⟨c, hcm, hpc⟩
    · simp [initialState] at h1
    · rw [hpc]
      exact hc c hcm
  · intro cfg m2 f b e _ _ hcache
    rw [foldl_startWatchingConfig_cache] at hcache
    have : ({ initialState configs now with isActive := true } :
        ManagerState).cache.entries = [] := rfl
    rw [this] at hcache
    exact absurd hcache (by simp [assocGet])

/-! ## Claim C4 theorems -/

/-- C4 counterexample: the claim fails as stated. Projects are keyed into
the cache by the string configPath colon filePath, so two distinct
(config, file) pairs can share one composite key. In the colliding state,
the pair (x/tsconfig.json, y/tsconfig.json:z.ts) holds the bucket of
project one in the store, while the shared cache key holds the bucket of
project two — a key present in both store and cache on which the two
disagree, reached purely by ingestion operations. -/
theorem c4_counterexample_colliding_keys : ¬ storeCacheAgree collidingState := by
  intro h
  have h1 := h "x/tsconfig.json"
    ((assocGet collidingState.diagnosticsByConfig "x/tsconfig.json").getD [])
    "y/tsconfig.json:z.ts"
    ((assocGet ((assocGet collidingState.diagnosticsByConfig "x/tsconfig.json").getD [])
        "y/tsconfig.json:z.ts").getD [])
    ((assocGet collidingState.cache.entries
        "x/tsconfig.json:y/tsconfig.json:z.ts").getD { diagnostics := [], timestamp := 0 })
    (by decide) (by decide) (by decide)
  exact absurd h1 (by decide)

/-- C4 amended: when no configured project path contains a colon —
so composite cache keys decompose uniquely — every state reachable from a
started manager by ingestion, status-change, clear and query operations
satisfies the store-cache agreement: any (config, file) key present in
both structures maps to the same diagnostics list (each cache write in
onDiagnostic also happens only after the store write, writing the very
bucket just stored). -/
theorem c4_store_cache_agreement_amended :
    ∀ (env : FsEnv) (configs : List TSProjectConfig) (now : Nat)
      (ops : List ManagerOp),
      (∀ c ∈ configs, ':' ∉ c.configPath.data) →
      storeCacheAgree (runOps (start env (initialState configs now)) ops) :=
  fun env configs now ops hc =>
    (managerInv_runOps ops _ (managerInv_start env configs now hc)).2

/-- C4 witness: c4_store_cache_agreement_amended applied to the started
single app project and a short run of ingest, query and clear
operations, discharging the colon-free hypothesis by computation. -/
theorem c4_store_cache_agreement_amended_witness :
    storeCacheAgree (runOps (start allFs (initialState [cfgApp] 0))
      [ManagerOp.ingest cfgApp (tsDiagAt "proj/a.ts" 4 2 "boom"),
       ManagerOp.queryFile "proj/a.ts",
       ManagerOp.clearFile "proj/a.ts"]) :=
  c4_store_cache_agreement_amended allFs [cfgApp] 0
    [ManagerOp.ingest cfgApp (tsDiagAt "proj/a.ts" 4 2 "boom"),
     ManagerOp.queryFile "proj/a.ts",
     ManagerOp.clearFile "proj/a.ts"] (by decide)

end TsDiagMcp
